import Mathlib

/-!
Verification of the core logic of `immich-gpx` (src/main.rs): loading GPX
track segments, filtering photo records, selecting a segment by capture
time, and linearly interpolating a coordinate between bracketing points.

Embedding conventions:
* UTC instants (`chrono::DateTime<Utc>`) are modelled as `Int` timestamps
  measured in whole seconds, so `Duration::num_seconds` of a difference is
  the plain integer difference.  All claims involve whole-second inputs.
* `f64` coordinates are modelled as `Rat`; the arithmetic in the program
  (`+`, `-`, `*`, `/` on values derived from input data) is carried over
  verbatim.
* fallible operations (`Result`) become `Except String`.
-/

/-- A loaded track point `(t, (x, y))` as produced by the loader:
`time` is the parsed UTC instant, `x` the longitude and `y` the latitude
(the `x_y()` accessor of the geo point). -/
structure TrackPoint where
  time : Int
  x : Rat
  y : Rat
deriving DecidableEq, Repr

/-- A track segment: one inner `Vec<(DateTime<Utc>, (f64, f64))>` of
`location_data`. -/
abbrev Segment := List TrackPoint

/-- The raw `gpx::Time` attached to a GPX point, before `convert_time`.
The external RFC3339 parser is abstracted by its outcome: `parsed = some t`
when the string formats and parses to the instant `t`, `none` when either
step fails. -/
structure RawTime where
  parsed : Option Int
deriving DecidableEq, Repr

/-- One raw GPX track point: an optional time plus the `x_y()` coordinates. -/
structure GpxPoint where
  time : Option RawTime
  x : Rat
  y : Rat
deriving DecidableEq, Repr

/-- Embedding of `convert_time` (src/main.rs:163-169): turn a `gpx::Time`
into a UTC instant, failing when formatting or parsing fails. -/
def convert_time (t : RawTime) : Except String Int :=
  match t.parsed with
  | some v => Except.ok v
  | none => Except.error "failed to parse string as datetime"

/-- The `collect::<Result<Vec<_>>>()` combinator: gather the `ok` values,
short-circuiting on the first error in order. -/
def collectResult {α : Type} : List (Except String α) → Except String (List α)
  | [] => Except.ok []
  | e :: es =>
    match e with
    | Except.error msg => Except.error msg
    | Except.ok a =>
      match collectResult es with
      | Except.error msg => Except.error msg
      | Except.ok rest => Except.ok (a :: rest)

/-- Embedding of the per-segment loading step (src/main.rs:64-70):
`segment.points.into_iter().filter_map(|p| Some(convert_time(p.time?).map(|t| (t, p.point().x_y())))).collect::<Result<Vec<_>>>()`.
Points whose `time` is `None` are dropped by the `?` inside `filter_map`;
points with a present but malformed time make the whole collect fail. -/
def loadSegment (points : List GpxPoint) : Except String Segment :=
  collectResult (points.filterMap (fun p =>
    p.time.map (fun t => Except.map (fun v => TrackPoint.mk v p.x p.y) (convert_time t))))

/-- Embedding of the sort step (src/main.rs:77-79):
`segment.sort_unstable_by_key(|p| p.0)`.  `sort_unstable_by_key` sorts by
the timestamp; the permutation chosen among equal keys is unspecified in
Rust, and `mergeSort` realises one admissible outcome. -/
def sortSegment (seg : Segment) : Segment :=
  seg.mergeSort (fun a b => decide (a.time ≤ b.time))

/-- The post-processing loop over all loaded segments (src/main.rs:77-79). -/
def sortSegments (segs : List Segment) : List Segment :=
  segs.map sortSegment

/-- Embedding of `ExifResponseDto` (src/main.rs:189-195). -/
structure ExifResponseDto where
  date_time_original : Int
  latitude : Option Rat
  longitude : Option Rat
deriving DecidableEq, Repr

/-- Embedding of `AssetResponseDto` (src/main.rs:181-187). -/
structure AssetResponseDto where
  id : String
  exif_info : ExifResponseDto
  owner_id : String
deriving DecidableEq, Repr

/-- Embedding of the post-fetch filter closure (src/main.rs:107-111):
`args.owner.as_ref().is_none_or(|id| id == &img.owner_id) && img.exif_info.latitude.is_none() && img.exif_info.longitude.is_none()`. -/
def keepAsset (owner : Option String) (img : AssetResponseDto) : Bool :=
  (match owner with
   | none => true
   | some id => id == img.owner_id)
  && img.exif_info.latitude.isNone
  && img.exif_info.longitude.isNone

/-- The bound check inside the segment search (src/main.rs:116-119):
`image.exif_info.date_time_original >= track.first().unwrap().0 && image.exif_info.date_time_original <= track.last().unwrap().0`.
The `unwrap`s are reached only on non-empty tracks; on an empty list the
check is `false`, matching that the surrounding filter removed it. -/
def segmentInBounds (c : Int) (seg : Segment) : Bool :=
  match seg.head?, seg.getLast? with
  | some f, some l => decide (f.time ≤ c) && decide (c ≤ l.time)
  | _, _ => false

/-- Embedding of the segment search (src/main.rs:113-122):
`location_data.iter().filter(|track| !track.is_empty()).find(|track| ...)`. -/
def findSegment (segs : List Segment) (c : Int) : Option Segment :=
  (segs.filter (fun s => !s.isEmpty)).find? (segmentInBounds c)

/-- The chained iterator (src/main.rs:125-128):
`track.iter().chain(std::iter::once(track.last().unwrap()))`.
On the empty list the `unwrap` would panic; `getLast?.toList` appends
nothing there, and the downstream pair collection fails just the same. -/
def chainWithLast (seg : Segment) : Segment :=
  seg ++ seg.getLast?.toList

/-- The skip-and-take step (src/main.rs:129-131):
`.skip_while(|p| p.0 < image.exif_info.date_time_original).take(2)`. -/
def bracketed (seg : Segment) (c : Int) : List TrackPoint :=
  ((chainWithLast seg).dropWhile (fun p => decide (p.time < c))).take 2

/-- The `collect_array::<2>()` step (src/main.rs:131): succeeds exactly when
the iterator yields exactly two elements. -/
def collectArray2 (l : List TrackPoint) : Option (TrackPoint × TrackPoint) :=
  match l with
  | [a, b] => some (a, b)
  | _ => none

/-- The duration `(b.0 - a.0).num_seconds().max(1)` (src/main.rs:135);
with whole-second timestamps `num_seconds` is the difference itself. -/
def pointsDt (a b : TrackPoint) : Int :=
  max (b.time - a.time) 1

/-- The duration `(capture - a.0).num_seconds().max(1)` (src/main.rs:136-138). -/
def captureDt (a : TrackPoint) (c : Int) : Int :=
  max (c - a.time) 1

/-- The longitude lerp (src/main.rs:139):
`a.1.0 + ((b.1.0 - a.1.0) * capture_dt / points_dt)`. -/
def lerpX (a b : TrackPoint) (c : Int) : Rat :=
  a.x + (b.x - a.x) * ((captureDt a c : Int) : Rat) / ((pointsDt a b : Int) : Rat)

/-- The latitude lerp (src/main.rs:140):
`a.1.1 + ((b.1.1 - a.1.1) * capture_dt / points_dt)`. -/
def lerpY (a b : TrackPoint) (c : Int) : Rat :=
  a.y + (b.y - a.y) * ((captureDt a c : Int) : Rat) / ((pointsDt a b : Int) : Rat)

/-- Outcome of the per-photo body (src/main.rs:112-140): the photo is
skipped (`continue` when no segment matches), the `expect` panics (pair
collection fails), or a coordinate is produced (`ok longitude latitude`). -/
inductive InterpResult where
  | skip
  | panic
  | ok (longitude latitude : Rat)
deriving DecidableEq, Repr

/-- The interpolation pipeline for one photo (src/main.rs:112-140):
segment selection, bracket-pair collection, and the two lerps. -/
def interpolate (segs : List Segment) (c : Int) : InterpResult :=
  match findSegment segs c with
  | none => InterpResult.skip
  | some track =>
    match collectArray2 (bracketed track c) with
    | none => InterpResult.panic
    | some (a, b) => InterpResult.ok (lerpX a b c) (lerpY a b c)

/-! Helper lemmas about the embedded operations. -/

theorem dropWhile_cons_head_false {α : Type} {p : α → Bool} {l : List α} {x : α}
    {xs : List α} (h : List.dropWhile p l = x :: xs) : p x = false := by
  induction l with
  | nil => simp [List.dropWhile] at h
  | cons a t ih =>
    rw [List.dropWhile_cons] at h
    split at h
    · exact ih h
    · next hp =>
      injection h with h1 _
      subst h1
      exact Bool.eq_false_iff.mpr hp

theorem dropWhile_ne_nil_of_mem {α : Type} {p : α → Bool} {l : List α} {x : α}
    (hx : x ∈ l) (hp : p x = false) : List.dropWhile p l ≠ [] := by
  intro h
  rw [List.dropWhile_eq_nil_iff] at h
  have := h x hx
  rw [hp] at this
  exact Bool.false_ne_true this

theorem dropWhile_append_of_ne_nil {α : Type} {p : α → Bool} {l₁ l₂ : List α}
    (h : List.dropWhile p l₁ ≠ []) :
    List.dropWhile p (l₁ ++ l₂) = List.dropWhile p l₁ ++ l₂ := by
  have hie : (List.dropWhile p l₁).isEmpty = false := by
    simp [List.isEmpty_iff, h]
  rw [List.dropWhile_append, hie]
  simp

theorem dropWhile_append_of_all {α : Type} {p : α → Bool} {l₁ l₂ : List α}
    (h : ∀ x ∈ l₁, p x = true) :
    List.dropWhile p (l₁ ++ l₂) = List.dropWhile p l₂ := by
  rw [List.dropWhile_append, List.dropWhile_eq_nil_iff.mpr h]
  simp

theorem take_two_eq_pair {α : Type} {l : List α} {a b : α} (h : l.take 2 = [a, b]) :
    ∃ t, l = a :: b :: t := by
  match l with
  | [] => simp at h
  | [x] => simp at h
  | x :: y :: t =>
    simp only [List.take] at h
    injection h with h1 h2
    injection h2 with h2 _
    exact ⟨t, by rw [h1, h2]⟩

theorem findSegment_some {segs : List Segment} {c : Int} {track : Segment}
    (h : findSegment segs c = some track) :
    track ≠ [] ∧ segmentInBounds c track = true := by
  unfold findSegment at h
  have hmem := List.mem_of_find?_eq_some h
  have hb := List.find?_some h
  rw [List.mem_filter] at hmem
  refine ⟨?_, hb⟩
  have := hmem.2
  simp only [Bool.not_eq_true', List.isEmpty_iff] at this
  simpa using this

theorem segmentInBounds_true_iff {c : Int} {seg : Segment} (h : seg ≠ []) :
    segmentInBounds c seg = true ↔
      ((seg.head h).time ≤ c ∧ c ≤ (seg.getLast h).time) := by
  unfold segmentInBounds
  rw [List.head?_eq_head h, List.getLast?_eq_getLast seg h]
  simp

theorem chainWithLast_eq (seg : Segment) (h : seg ≠ []) :
    chainWithLast seg = seg ++ [seg.getLast h] := by
  unfold chainWithLast
  rw [List.getLast?_eq_getLast seg h]
  rfl

theorem bracketed_length_two {seg : Segment} {c : Int} (hne : seg ≠ [])
    (hub : c ≤ (seg.getLast hne).time) : (bracketed seg c).length = 2 := by
  have hpL : (fun p : TrackPoint => decide (p.time < c)) (seg.getLast hne) = false :=
    decide_eq_false (by omega)
  have hdw : List.dropWhile (fun p : TrackPoint => decide (p.time < c)) seg ≠ [] :=
    dropWhile_ne_nil_of_mem (List.getLast_mem hne) hpL
  unfold bracketed
  rw [chainWithLast_eq seg hne, dropWhile_append_of_ne_nil hdw]
  rw [List.length_take, List.length_append]
  have : 0 < (List.dropWhile (fun p : TrackPoint => decide (p.time < c)) seg).length :=
    List.length_pos.mpr hdw
  simp only [List.length_cons, List.length_nil]
  omega

theorem collectArray2_pair {l : List TrackPoint} (h : l.length = 2) :
    ∃ a b, l = [a, b] ∧ collectArray2 l = some (a, b) := by
  obtain ⟨a, b, rfl⟩ := List.length_eq_two.mp h
  exact ⟨a, b, rfl, rfl⟩

theorem interpolate_eq_ok {segs : List Segment} {c : Int} {track : Segment}
    {a b : TrackPoint} (h1 : findSegment segs c = some track)
    (h2 : bracketed track c = [a, b]) :
    interpolate segs c = InterpResult.ok (lerpX a b c) (lerpY a b c) := by
  simp only [interpolate, h1]
  rw [h2]
  rfl

theorem lerp_self (a : TrackPoint) (c : Int) :
    lerpX a a c = a.x ∧ lerpY a a c = a.y := by
  unfold lerpX lerpY
  constructor <;> ring

theorem head_time_le_getLast {seg : Segment}
    (hs : List.Pairwise (fun a b : TrackPoint => a.time ≤ b.time) seg)
    (hne : seg ≠ []) : (seg.head hne).time ≤ (seg.getLast hne).time := by
  match seg with
  | a :: t =>
    rcases List.mem_cons.mp (List.getLast_mem hne) with hL | hL
    · show a.time ≤ ((a :: t).getLast hne).time
      rw [hL]
    · exact (List.pairwise_cons.mp hs).1 _ hL

theorem bracketed_head_le {seg : Segment} {c : Int} {a b : TrackPoint}
    (h : bracketed seg c = [a, b]) : c ≤ a.time := by
  have h' : ((chainWithLast seg).dropWhile
      (fun p => decide (p.time < c))).take 2 = [a, b] := h
  obtain ⟨t, ht⟩ := take_two_eq_pair h'
  have hfalse := @dropWhile_cons_head_false TrackPoint
    (fun p => decide (p.time < c)) (chainWithLast seg) a (b :: t) ht
  have hfalse' : decide (a.time < c) = false := hfalse
  exact le_of_not_lt (of_decide_eq_false hfalse')

theorem dropWhile_lt_of_strict (pre : List TrackPoint) (L : TrackPoint)
    (hall : ∀ x ∈ pre, x.time < L.time) :
    List.dropWhile (fun p : TrackPoint => decide (p.time < L.time))
      (pre ++ [L]) = [L] := by
  rw [dropWhile_append_of_all (fun x hx => decide_eq_true (hall x hx)),
    List.dropWhile_cons]
  simp

theorem getLast_of_suffix {α : Type} {l₁ l₂ : List α} (hs : l₁ <:+ l₂)
    (h1 : l₁ ≠ []) (h2 : l₂ ≠ []) : l₁.getLast h1 = l₂.getLast h2 := by
  obtain ⟨t, rfl⟩ := hs
  rw [List.getLast_append]
  simp [List.isEmpty_iff, h1]

theorem findSegment_single {seg : Segment} {c : Int} (hne : seg ≠ [])
    (hb : segmentInBounds c seg = true) : findSegment [seg] c = some seg := by
  unfold findSegment
  have hie : seg.isEmpty = false := by simp [List.isEmpty_iff, hne]
  have : ([seg].filter (fun s => !s.isEmpty)) = [seg] := by
    simp [List.filter, hie]
  rw [this]
  simp [List.find?, hb]

/-! Claim theorems. -/

/-- C1: on a single segment with points at timestamps 0, 10, 20 carrying
coordinates (0,0), (10,10), (20,20), a photo captured at time 5 gets the
coordinate pair (11, 11) from the code, not the (5, 5) the specification
promises: the skip step retains as `a` the first point at-or-after the capture
time, so the clamped capture duration is 1 and the result overshoots `a`
towards `b` instead of interpolating between the surrounding points. -/
theorem interpolate_example_returns_11 :
    interpolate [[⟨0, 0, 0⟩, ⟨10, 10, 10⟩, ⟨20, 20, 20⟩]] 5 =
      InterpResult.ok 11 11 ∧
    InterpResult.ok (11 : Rat) (11 : Rat) ≠ InterpResult.ok 5 5 := by
  constructor
  · norm_num [interpolate, findSegment, segmentInBounds, chainWithLast,
      bracketed, collectArray2, lerpX, lerpY, captureDt, pointsDt, List.filter,
      List.find?, List.dropWhile]
  · norm_num [InterpResult.ok.injEq]

/-- C2: whenever segment selection succeeds, the interpolator computes exactly
the composition stated by the specification: append a duplicate of the last
point, skip every point whose timestamp is strictly less than the capture
time, take the next two points as (a, b), clamp both whole-second differences
to at least 1, and return a.value + (b.value - a.value) * capture_dt /
points_dt for each coordinate independently. -/
theorem interpolate_formula (segs : List Segment) (c : Int) (track : Segment)
    (a b : TrackPoint) (h1 : findSegment segs c = some track)
    (h2 : ((track ++ track.getLast?.toList).dropWhile
        (fun p => decide (p.time < c))).take 2 = [a, b]) :
    interpolate segs c =
      InterpResult.ok
        (a.x + (b.x - a.x) * ((max (c - a.time) 1 : Int) : Rat) /
          ((max (b.time - a.time) 1 : Int) : Rat))
        (a.y + (b.y - a.y) * ((max (c - a.time) 1 : Int) : Rat) /
          ((max (b.time - a.time) 1 : Int) : Rat)) := by
  have hb : bracketed track c = [a, b] := h2
  rw [interpolate_eq_ok h1 hb]
  rfl

/-- Witness for C2 at the concrete scenario of C1: the selected pair is the
two points at timestamps 10 and 20 and the returned value matches the
specification's formula instantiated there. -/
theorem interpolate_formula_witness :
    interpolate [[⟨0, 0, 0⟩, ⟨10, 10, 10⟩, ⟨20, 20, 20⟩]] 5 =
      InterpResult.ok
        ((10 : Rat) + (20 - 10) * ((max (5 - 10) 1 : Int) : Rat) /
          ((max (20 - 10) 1 : Int) : Rat))
        ((10 : Rat) + (20 - 10) * ((max (5 - 10) 1 : Int) : Rat) /
          ((max (20 - 10) 1 : Int) : Rat)) :=
  interpolate_formula [[⟨0, 0, 0⟩, ⟨10, 10, 10⟩, ⟨20, 20, 20⟩]] 5
    [⟨0, 0, 0⟩, ⟨10, 10, 10⟩, ⟨20, 20, 20⟩] ⟨10, 10, 10⟩ ⟨20, 20, 20⟩ rfl rfl

/-- C8: the point `a` retained by the skip step never lies before the capture
time, so the clamped capture duration is always exactly 1, the lerp collapses
to a.value + (b.value - a.value) / points_dt, and the computed value does not
depend on the capture time beyond which pair of points it selects. -/
theorem capture_dt_always_one (seg : Segment) (c : Int) (a b : TrackPoint)
    (h : bracketed seg c = [a, b]) :
    c ≤ a.time ∧ captureDt a c = 1 ∧
    lerpX a b c = a.x + (b.x - a.x) / ((pointsDt a b : Int) : Rat) ∧
    lerpY a b c = a.y + (b.y - a.y) / ((pointsDt a b : Int) : Rat) ∧
    ∀ c' : Int, bracketed seg c' = [a, b] →
      lerpX a b c' = lerpX a b c ∧ lerpY a b c' = lerpY a b c := by
  have hca : c ≤ a.time := bracketed_head_le h
  have hcd : captureDt a c = 1 := by unfold captureDt; omega
  have hx : lerpX a b c = a.x + (b.x - a.x) / ((pointsDt a b : Int) : Rat) := by
    unfold lerpX
    rw [hcd]
    push_cast
    ring
  have hy : lerpY a b c = a.y + (b.y - a.y) / ((pointsDt a b : Int) : Rat) := by
    unfold lerpY
    rw [hcd]
    push_cast
    ring
  refine ⟨hca, hcd, hx, hy, ?_⟩
  intro c' h'
  have hca' : c' ≤ a.time := bracketed_head_le h'
  have hcd' : captureDt a c' = 1 := by unfold captureDt; omega
  constructor
  · unfold lerpX; rw [hcd, hcd']
  · unfold lerpY; rw [hcd, hcd']

/-- Witness for C8 at the concrete scenario of C1: the selected pair is
(a, b) = ((10,10,10), (20,20,20)) and all five conjuncts hold there. -/
theorem capture_dt_always_one_witness :
    (5 : Int) ≤ (TrackPoint.mk 10 10 10).time ∧
    captureDt ⟨10, 10, 10⟩ 5 = 1 ∧
    lerpX ⟨10, 10, 10⟩ ⟨20, 20, 20⟩ 5 =
      (10 : Rat) + (20 - 10) /
        ((pointsDt ⟨10, 10, 10⟩ ⟨20, 20, 20⟩ : Int) : Rat) ∧
    lerpY ⟨10, 10, 10⟩ ⟨20, 20, 20⟩ 5 =
      (10 : Rat) + (20 - 10) /
        ((pointsDt ⟨10, 10, 10⟩ ⟨20, 20, 20⟩ : Int) : Rat) ∧
    ∀ c' : Int,
      bracketed [⟨0, 0, 0⟩, ⟨10, 10, 10⟩, ⟨20, 20, 20⟩] c' =
        [⟨10, 10, 10⟩, ⟨20, 20, 20⟩] →
      lerpX ⟨10, 10, 10⟩ ⟨20, 20, 20⟩ c' = lerpX ⟨10, 10, 10⟩ ⟨20, 20, 20⟩ 5 ∧
      lerpY ⟨10, 10, 10⟩ ⟨20, 20, 20⟩ c' = lerpY ⟨10, 10, 10⟩ ⟨20, 20, 20⟩ 5 :=
  capture_dt_always_one [⟨0, 0, 0⟩, ⟨10, 10, 10⟩, ⟨20, 20, 20⟩] 5
    ⟨10, 10, 10⟩ ⟨20, 20, 20⟩ rfl

/-- C5: for a non-empty segment whose first point is not after and whose last
point is not before the capture time, the skip-and-take-two lookup over the
segment with the duplicated last point appended yields exactly two points;
moreover the panic branch of the pipeline is unreachable for every input,
because segment selection only ever returns segments satisfying this
precondition. -/
theorem bracket_pair_total (seg : Segment) (c : Int) (hne : seg ≠ [])
    (_hlb : (seg.head hne).time ≤ c) (hub : c ≤ (seg.getLast hne).time) :
    (bracketed seg c).length = 2 ∧
    ∀ segs : List Segment, interpolate segs c ≠ InterpResult.panic := by
  refine ⟨bracketed_length_two hne hub, ?_⟩
  intro segs
  cases hfind : findSegment segs c with
  | none => simp [interpolate, hfind]
  | some track =>
    obtain ⟨htne, htb⟩ := findSegment_some hfind
    have hbound := (segmentInBounds_true_iff htne).mp htb
    obtain ⟨a, b, hab, hcoll⟩ :=
      collectArray2_pair (bracketed_length_two htne hbound.2)
    rw [interpolate_eq_ok hfind hab]
    simp

/-- Witness for C5 on a concrete two-point segment with capture time 5. -/
theorem bracket_pair_total_witness :
    (bracketed [⟨0, 0, 0⟩, ⟨10, 10, 10⟩] 5).length = 2 ∧
    ∀ segs : List Segment, interpolate segs 5 ≠ InterpResult.panic :=
  bracket_pair_total [⟨0, 0, 0⟩, ⟨10, 10, 10⟩] 5 (by simp) (by decide) (by decide)

/-- C3 counterexample: with segment points (0,(0,0)) and (10,(10,10)) and a
photo captured exactly at the first boundary (time 0), the code returns
(1, 1), not the boundary coordinate (0, 0): the capture duration is clamped
to 1 second, shifting the result towards the second point. -/
theorem first_boundary_not_exact :
    interpolate [[⟨0, 0, 0⟩, ⟨10, 10, 10⟩]] 0 = InterpResult.ok 1 1 ∧
    InterpResult.ok (1 : Rat) (1 : Rat) ≠ InterpResult.ok 0 0 := by
  constructor
  · norm_num [interpolate, findSegment, segmentInBounds, chainWithLast,
      bracketed, collectArray2, lerpX, lerpY, captureDt, pointsDt, List.filter,
      List.find?, List.dropWhile]
  · norm_num [InterpResult.ok.injEq]

/-- C3 (amended): a photo captured exactly at the timestamp of a segment's
last point — when every other point of the segment is strictly earlier —
receives that last point's recorded coordinate exactly; at the first-point
boundary the result instead carries the clamped-duration bias. -/
theorem capture_at_last_boundary (seg : Segment) (hne : seg ≠ [])
    (hstrict : ∀ pt ∈ seg.dropLast, pt.time < (seg.getLast hne).time) :
    interpolate [seg] ((seg.getLast hne).time) =
      InterpResult.ok (seg.getLast hne).x (seg.getLast hne).y := by
  have hhead : (seg.head hne).time ≤ (seg.getLast hne).time := by
    match seg, hne with
    | [a], hne => exact le_refl _
    | a :: b :: t, hne =>
      exact le_of_lt (hstrict a (by simp [List.dropLast]))
  have hfind : findSegment [seg] ((seg.getLast hne).time) = some seg :=
    findSegment_single hne
      ((segmentInBounds_true_iff hne).mpr ⟨hhead, le_refl _⟩)
  have hdws : List.dropWhile
      (fun p : TrackPoint => decide (p.time < (seg.getLast hne).time)) seg =
      [seg.getLast hne] := by
    have h1 := dropWhile_lt_of_strict seg.dropLast (seg.getLast hne) hstrict
    rw [List.dropLast_append_getLast hne] at h1
    exact h1
  have hbr : bracketed seg ((seg.getLast hne).time) =
      [seg.getLast hne, seg.getLast hne] := by
    unfold bracketed
    rw [chainWithLast_eq seg hne,
      dropWhile_append_of_ne_nil (by rw [hdws]; exact List.cons_ne_nil _ _),
      hdws]
    rfl
  rw [interpolate_eq_ok hfind hbr, (lerp_self _ _).1, (lerp_self _ _).2]

/-- Witness for C3 on a two-point segment with distinct timestamps: capturing
at the last timestamp returns the last point's coordinates. -/
theorem capture_at_last_boundary_witness :
    interpolate [[⟨0, 1, 2⟩, ⟨10, 3, 4⟩]] 10 = InterpResult.ok 3 4 :=
  capture_at_last_boundary [⟨0, 1, 2⟩, ⟨10, 3, 4⟩] (by simp)
    (by
      intro pt hpt
      have h2 : pt ∈ [(⟨0, 1, 2⟩ : TrackPoint)] := hpt
      rw [List.mem_singleton.mp h2]
      decide)

/-- C4 counterexample: when three points share the last timestamp, capturing
at that timestamp returns the coordinates of the second of them, (2, 2), not
the last point's (3, 3), because the skip step leaves all three points and
the take step keeps the first two. -/
theorem capture_at_last_duplicates :
    interpolate [[⟨10, 1, 1⟩, ⟨10, 2, 2⟩, ⟨10, 3, 3⟩]] 10 =
      InterpResult.ok 2 2 ∧
    InterpResult.ok (2 : Rat) (2 : Rat) ≠ InterpResult.ok 3 3 := by
  constructor
  · norm_num [interpolate, findSegment, segmentInBounds, chainWithLast,
      bracketed, collectArray2, lerpX, lerpY, captureDt, pointsDt, List.filter,
      List.find?, List.dropWhile]
  · norm_num [InterpResult.ok.injEq]

/-- C4 (amended): for a sorted segment, capturing at the last point's
timestamp — provided at most two of the segment's points lie at-or-after it,
i.e. at most two share the last timestamp — still yields a pair of points via
the appended duplicate of the last point, and the result is exactly the last
point's coordinate. -/
theorem capture_at_last_with_few_ties (seg : Segment) (hne : seg ≠ [])
    (hs : List.Pairwise (fun a b : TrackPoint => a.time ≤ b.time) seg)
    (hlen : (seg.dropWhile
      (fun p => decide (p.time < (seg.getLast hne).time))).length ≤ 2) :
    (bracketed seg ((seg.getLast hne).time)).length = 2 ∧
    interpolate [seg] ((seg.getLast hne).time) =
      InterpResult.ok (seg.getLast hne).x (seg.getLast hne).y := by
  have hpfalse : (fun p : TrackPoint =>
      decide (p.time < (seg.getLast hne).time)) (seg.getLast hne) = false :=
    decide_eq_false (lt_irrefl _)
  have hdwne : List.dropWhile
      (fun p : TrackPoint => decide (p.time < (seg.getLast hne).time)) seg ≠
      [] :=
    dropWhile_ne_nil_of_mem (List.getLast_mem hne) hpfalse
  have happ : List.dropWhile
      (fun p : TrackPoint => decide (p.time < (seg.getLast hne).time))
      (seg ++ [seg.getLast hne]) =
      List.dropWhile
        (fun p : TrackPoint => decide (p.time < (seg.getLast hne).time)) seg ++
      [seg.getLast hne] :=
    dropWhile_append_of_ne_nil hdwne
  have hfind : findSegment [seg] ((seg.getLast hne).time) = some seg :=
    findSegment_single hne
      ((segmentInBounds_true_iff hne).mpr
        ⟨head_time_le_getLast hs hne, le_refl _⟩)
  refine ⟨bracketed_length_two hne (le_refl _), ?_⟩
  have hsuf := @List.dropWhile_suffix TrackPoint seg
    (fun p => decide (p.time < (seg.getLast hne).time))
  cases hdw : List.dropWhile
      (fun p : TrackPoint => decide (p.time < (seg.getLast hne).time)) seg with
  | nil => exact absurd hdw hdwne
  | cons x rest =>
    cases rest with
    | nil =>
      have hx : x = seg.getLast hne := by
        have hgl := getLast_of_suffix (hdw ▸ hsuf) (List.cons_ne_nil x []) hne
        simpa using hgl
      have hbr : bracketed seg ((seg.getLast hne).time) =
          [seg.getLast hne, seg.getLast hne] := by
        unfold bracketed
        rw [chainWithLast_eq seg hne, happ, hdw, hx]
        rfl
      rw [interpolate_eq_ok hfind hbr, (lerp_self _ _).1, (lerp_self _ _).2]
    | cons y rest2 =>
      cases rest2 with
      | nil =>
        have hy : y = seg.getLast hne := by
          have hgl :=
            getLast_of_suffix (hdw ▸ hsuf) (List.cons_ne_nil x [y]) hne
          simpa using hgl
        have hxc := @dropWhile_cons_head_false TrackPoint
          (fun p => decide (p.time < (seg.getLast hne).time)) seg x [y] hdw
        have hxc' : decide (x.time < (seg.getLast hne).time) = false := hxc
        have hxge : (seg.getLast hne).time ≤ x.time :=
          le_of_not_lt (of_decide_eq_false hxc')
        have hpw : List.Pairwise (fun a b : TrackPoint => a.time ≤ b.time)
            [x, y] :=
          hs.sublist (hdw ▸ hsuf).sublist
        have hxy : x.time ≤ y.time := (List.pairwise_cons.mp hpw).1 y (by simp)
        have hyt : y.time = (seg.getLast hne).time := by rw [hy]
        have hxt : x.time = (seg.getLast hne).time := by omega
        have hbr : bracketed seg ((seg.getLast hne).time) = [x, y] := by
          unfold bracketed
          rw [chainWithLast_eq seg hne, happ, hdw]
          rfl
        rw [interpolate_eq_ok hfind hbr]
        have hpdt : pointsDt x y = 1 := by unfold pointsDt; omega
        have hcdt : captureDt x ((seg.getLast hne).time) = 1 := by
          unfold captureDt; omega
        have hlx : lerpX x y ((seg.getLast hne).time) = (seg.getLast hne).x := by
          unfold lerpX
          rw [hpdt, hcdt, ← hy]
          push_cast
          ring
        have hly : lerpY x y ((seg.getLast hne).time) = (seg.getLast hne).y := by
          unfold lerpY
          rw [hpdt, hcdt, ← hy]
          push_cast
          ring
        rw [hlx, hly]
      | cons z rest3 =>
        rw [hdw] at hlen
        simp only [List.length_cons] at hlen
        omega

/-- Witness for C4 on a two-point segment whose last timestamp is unique:
capturing at the last timestamp yields a pair and the last coordinates. -/
theorem capture_at_last_with_few_ties_witness :
    (bracketed [⟨0, 1, 1⟩, ⟨10, 7, 8⟩] 10).length = 2 ∧
    interpolate [[⟨0, 1, 1⟩, ⟨10, 7, 8⟩]] 10 = InterpResult.ok 7 8 :=
  capture_at_last_with_few_ties [⟨0, 1, 1⟩, ⟨10, 7, 8⟩] (by simp)
    (by decide) (by decide)

/-- C6: segment selection returns the first non-empty segment in load order
whose first point's timestamp is at most the capture time and whose last
point's timestamp is at least it; and when no segment's [first, last] bound
contains the capture time, the pipeline yields the skip outcome — the photo
gets no update and no error is raised. -/
theorem find_first_or_skip (segs : List Segment) (c : Int) :
    findSegment segs c =
      segs.find? (fun s => !s.isEmpty && segmentInBounds c s) ∧
    ((∀ seg ∈ segs, ∀ hn : seg ≠ [],
        ¬((seg.head hn).time ≤ c ∧ c ≤ (seg.getLast hn).time)) →
      interpolate segs c = InterpResult.skip) := by
  constructor
  · unfold findSegment
    rw [List.find?_filter]
    congr 1
    funext s
    cases h1 : s.isEmpty <;> cases h2 : segmentInBounds c s <;> simp [h1, h2]
  · intro h
    have hfind : findSegment segs c = none := by
      unfold findSegment
      rw [List.find?_eq_none]
      intro s hs
      rw [List.mem_filter] at hs
      have hsne : s ≠ [] := by
        have h2 := hs.2
        simp only [Bool.not_eq_true', List.isEmpty_iff] at h2
        simpa using h2
      intro hb
      exact h s hs.1 hsne ((segmentInBounds_true_iff hsne).mp hb)
    simp [interpolate, hfind]

/-- Witness for C6: capture time 50 lies outside the single segment's bound
[0, 10], so the pipeline skips the photo. -/
theorem find_first_or_skip_witness :
    interpolate [[⟨0, 0, 0⟩, ⟨10, 1, 1⟩]] 50 = InterpResult.skip :=
  (find_first_or_skip [[⟨0, 0, 0⟩, ⟨10, 1, 1⟩]] 50).2 (by
    intro seg hseg hn
    rw [List.mem_singleton] at hseg
    subst hseg
    show ¬((0 : Int) ≤ 50 ∧ (50 : Int) ≤ 10)
    decide)

/-- C7 (amended): the post-fetch filter keeps exactly the records where the
owner filter is absent or equals the record's owner id and both existing
coordinates are absent; consequently a record with exactly one of the two
coordinates set IS excluded by this filter and does not reach interpolation. -/
theorem keepAsset_both_absent (owner : Option String)
    (img : AssetResponseDto) :
    (keepAsset owner img = true ↔
      ((owner = none ∨ owner = some img.owner_id) ∧
        img.exif_info.latitude = none ∧ img.exif_info.longitude = none)) ∧
    ((img.exif_info.latitude ≠ none ∨ img.exif_info.longitude ≠ none) →
      keepAsset owner img = false) := by
  have hmain : keepAsset owner img = true ↔
      ((owner = none ∨ owner = some img.owner_id) ∧
        img.exif_info.latitude = none ∧ img.exif_info.longitude = none) := by
    unfold keepAsset
    cases owner with
    | none => simp [Option.isNone_iff_eq_none]
    | some id => simp [Option.isNone_iff_eq_none, and_assoc]
  refine ⟨hmain, ?_⟩
  intro hor
  cases hk : keepAsset owner img with
  | false => rfl
  | true =>
    have hkeep := hmain.mp hk
    rcases hor with h | h
    · exact absurd hkeep.2.1 h
    · exact absurd hkeep.2.2 h

/-- C7 counterexample: a record with longitude set but latitude absent is
dropped by the post-fetch filter, contradicting the claim that such a record
proceeds to interpolation. -/
theorem keepAsset_one_coord_excluded :
    keepAsset none ⟨"asset-1", ⟨0, none, some 1⟩, "user-1"⟩ = false := rfl

/-- Witness for C7 on a record with only latitude set: the filter excludes
it. -/
theorem keepAsset_both_absent_witness :
    keepAsset none ⟨"asset-2", ⟨0, some 2, none⟩, "user-2"⟩ = false :=
  (keepAsset_both_absent none ⟨"asset-2", ⟨0, some 2, none⟩, "user-2"⟩).2
    (Or.inl (by simp))

/-- C9: after loading and post-processing, every segment's point sequence has
non-decreasing timestamps; segments are read-only afterwards, so the
invariant persists for the rest of the run. -/
theorem sorted_after_post (segs : List Segment) (seg : Segment)
    (h : seg ∈ sortSegments segs) :
    List.Pairwise (fun a b : TrackPoint => a.time ≤ b.time) seg := by
  obtain ⟨s, _, rfl⟩ := List.mem_map.mp h
  have hsorted : List.Pairwise
      (fun a b : TrackPoint =>
        (fun a b : TrackPoint => decide (a.time ≤ b.time)) a b = true)
      (s.mergeSort (fun a b => decide (a.time ≤ b.time))) :=
    List.sorted_mergeSort
      (by
        intro a b c hab hbc
        exact decide_eq_true
          (le_trans (of_decide_eq_true hab) (of_decide_eq_true hbc)))
      (by
        intro a b
        rcases le_total a.time b.time with h' | h' <;> simp [h'])
      s
  unfold sortSegment
  exact List.Pairwise.imp (fun hab => of_decide_eq_true hab) hsorted

/-- Witness for C9: sorting a two-point segment given in reverse timestamp
order yields a non-decreasing sequence. -/
theorem sorted_after_post_witness :
    List.Pairwise (fun a b : TrackPoint => a.time ≤ b.time)
      (sortSegment [⟨1, 5, 5⟩, ⟨0, 3, 3⟩]) :=
  sorted_after_post [[⟨1, 5, 5⟩, ⟨0, 3, 3⟩]] (sortSegment [⟨1, 5, 5⟩, ⟨0, 3, 3⟩])
    (List.mem_map_of_mem sortSegment (List.mem_singleton.mpr rfl))

/-- C10: a GPX point lacking a timestamp is silently dropped during loading:
removing it from the raw point list leaves the loading result — including its
error status — unchanged, so such a point appears in no loaded segment and
never participates in segment or bracket selection. -/
theorem missing_time_dropped (pre post : List GpxPoint) (p : GpxPoint)
    (h : p.time = none) :
    loadSegment (pre ++ p :: post) = loadSegment (pre ++ post) := by
  unfold loadSegment
  rw [List.filterMap_append, List.filterMap_append,
    List.filterMap_cons_none (by rw [h]; rfl)]

/-- Witness for C10: a point without a timestamp between two timestamped
points does not change the loaded segment. -/
theorem missing_time_dropped_witness :
    loadSegment [⟨some ⟨some 3⟩, 1, 2⟩, ⟨none, 9, 9⟩, ⟨some ⟨some 7⟩, 4, 5⟩] =
      loadSegment [⟨some ⟨some 3⟩, 1, 2⟩, ⟨some ⟨some 7⟩, 4, 5⟩] :=
  missing_time_dropped [⟨some ⟨some 3⟩, 1, 2⟩] [⟨some ⟨some 7⟩, 4, 5⟩]
    ⟨none, 9, 9⟩ rfl
